import Mathlib

/-!
Verification of the recipe-app-api repository specification.

The repository under examination ships only the recipe app's URL routing
(`app/recipe/urls.py`) and two test suites (`test_recipe_api.py`,
`test_ingredients_api.py`).  The view, serializer and model code they
exercise (`recipe/views.py`, `recipe/serializers.py`, `core/models.py`)
is not part of the source tree, so the endpoint behaviour below is
modelled from the specification and checked for consistency with the
assertions of the shipped tests.

The model: a `Store` holds the ORM tables (recipes, tags, ingredients,
and the auto-increment counters).  Each REST endpoint becomes a function
from an optional authenticated user id, the request parameters and the
store to an HTTP status code together with the response data and/or the
updated store.
-/

namespace RecipeAPI

/-- A Tag or Ingredient row: id, owning user id, and name.  Modelled from
the spec: `core/models.py` is not in the source tree; §3 gives Tag and
Ingredient the attributes name plus an owning-user foreign key. -/
structure Named where
  id : Nat
  user : Nat
  name : String
deriving Repr, DecidableEq

/-- A Recipe row.  Modelled from the spec: `core/models.py` is not in the
source tree; §3 lists title, time-to-prepare in minutes, price (decimal,
modelled as an integer number of cents), description, external link, an
owning user, and many-to-many relations to tags and ingredients (kept
here as lists of ids). -/
structure Recipe where
  id : Nat
  user : Nat
  title : String
  time_minutes : Nat
  price : Int
  description : String
  link : String
  tags : List Nat
  ingredients : List Nat
deriving Repr, DecidableEq

/-- The database state: one list per table plus auto-increment counters. -/
structure Store where
  recipes : List Recipe
  tags : List Named
  ingredients : List Named
  nextRecipeId : Nat
  nextTagId : Nat
  nextIngredientId : Nat
deriving Repr, DecidableEq

/-- Well-formedness of the store: primary keys are unique per table and
below the table's auto-increment counter, as the ORM guarantees. -/
def Store.WF (s : Store) : Prop :=
  (s.recipes.map Recipe.id).Nodup ∧
  (s.tags.map Named.id).Nodup ∧
  (s.ingredients.map Named.id).Nodup ∧
  (∀ r ∈ s.recipes, r.id < s.nextRecipeId) ∧
  (∀ t ∈ s.tags, t.id < s.nextTagId) ∧
  (∀ t ∈ s.ingredients, t.id < s.nextIngredientId)

/-- Payload of `POST /recipes/`: required scalar fields, optional inline
tag and ingredient names, and a write-attempt on the owner field that the
serializer silently ignores (spec §3, §7). -/
structure RecipeCreatePayload where
  title : String
  time_minutes : Nat
  price : Int
  description : String
  link : String
  tagNames : List String
  ingredientNames : List String
  userField : Option Nat
deriving Repr, DecidableEq

/-- Payload of `PATCH /recipes/{id}/`: every field optional; a present
owner field is silently ignored (spec §3, §7). -/
structure RecipePatchPayload where
  title : Option String
  time_minutes : Option Nat
  price : Option Int
  description : Option String
  link : Option String
  userField : Option Nat
deriving Repr, DecidableEq

/-- Payload of `PUT /recipes/{id}/`: all writable fields required; a
present owner field is silently ignored (spec §3, §7). -/
structure RecipePutPayload where
  title : String
  time_minutes : Nat
  price : Int
  description : String
  link : String
  userField : Option Nat
deriving Repr, DecidableEq

/-- Payload of `POST /tags/` or `POST /ingredients/`. -/
structure NamedCreatePayload where
  name : String
  userField : Option Nat
deriving Repr, DecidableEq

/-- Payload of `PATCH /tags/{id}/` or `PATCH /ingredients/{id}/`. -/
structure NamedPatchPayload where
  name : Option String
  userField : Option Nat
deriving Repr, DecidableEq

/-- Payload of `PUT /tags/{id}/` or `PUT /ingredients/{id}/`: the single
writable field is required; a present owner field is silently ignored
(spec §3, §7). -/
structure NamedPutPayload where
  name : String
  userField : Option Nat
deriving Repr, DecidableEq

/-- Descending-id order used by the recipe list endpoint
(`Recipe.objects.all().order_by(-id)` in `test_retrive_recipes`). -/
def recipeOrd (a b : Recipe) : Prop := b.id ≤ a.id

instance : DecidableRel recipeOrd := fun a b => Nat.decLe b.id a.id

instance : IsTotal Recipe recipeOrd :=
  ⟨fun a b => (Nat.le_total b.id a.id).imp id id⟩

instance : IsTrans Recipe recipeOrd :=
  ⟨fun _ _ _ h1 h2 => Nat.le_trans h2 h1⟩

/-- Descending-name order used by the tag and ingredient list endpoints
(`Ingredient.objects.all().order_by(-name)` in `test_retrieve_ingredients`). -/
def namedOrd (a b : Named) : Prop := b.name ≤ a.name

instance : DecidableRel namedOrd :=
  fun a b => inferInstanceAs (Decidable (b.name ≤ a.name))

instance : IsTotal Named namedOrd :=
  ⟨fun a b => (le_total b.name a.name).imp id id⟩

instance : IsTrans Named namedOrd :=
  ⟨fun _ _ _ h1 h2 => le_trans h2 h1⟩

/-- Modelled from the spec: the get-or-create lookup the recipe
serializer performs for one inline tag/ingredient name (`recipe/serializers.py`
is not in the source tree; spec §3: "creates-or-reuses by name+user").
Returns the found or created row, the updated table and counter. -/
def getOrCreateNamed (items : List Named) (nextId u : Nat) (n : String) :
    Named × List Named × Nat :=
  match items.find? (fun t => t.user == u && t.name == n) with
  | some t => (t, items, nextId)
  | none => (⟨nextId, u, n⟩, items ++ [⟨nextId, u, n⟩], nextId + 1)

/-- Modelled from the spec: the serializer's loop over the inline
tag/ingredient names of a recipe payload — get-or-create each name for
the requesting user and collect the association ids (many-to-many `add`
is idempotent, so an id is recorded at most once). -/
def getOrCreateMany (items : List Named) (nextId u : Nat) :
    List String → List Nat × List Named × Nat
  | [] => ([], items, nextId)
  | n :: rest =>
    let p1 := getOrCreateNamed items nextId u n
    let p2 := getOrCreateMany p1.2.1 p1.2.2 u rest
    (if p1.1.id ∈ p2.1 then p2.1 else p1.1.id :: p2.1, p2.2.1, p2.2.2)

/-- Modelled from the spec: creation of a recipe for authenticated user
`u` (`recipe/serializers.py` is not in src/): the owner is set to the
requesting user (any owner field in the payload is ignored), and inline
tag/ingredient names are resolved get-or-create per name+user.
Returns the created row and the updated store. -/
def createRecipeCore (u : Nat) (p : RecipeCreatePayload) (s : Store) :
    Recipe × Store :=
  let tg := getOrCreateMany s.tags s.nextTagId u p.tagNames
  let ig := getOrCreateMany s.ingredients s.nextIngredientId u p.ingredientNames
  let r : Recipe :=
    ⟨s.nextRecipeId, u, p.title, p.time_minutes, p.price,
      p.description, p.link, tg.1, ig.1⟩
  (r, { recipes := s.recipes ++ [r]
        tags := tg.2.1
        ingredients := ig.2.1
        nextRecipeId := s.nextRecipeId + 1
        nextTagId := tg.2.2
        nextIngredientId := ig.2.2 })

/-- Applying a PATCH payload to a recipe row: present fields overwrite,
absent fields keep their stored value; id and owner are untouched. -/
def applyRecipePatch (p : RecipePatchPayload) (r : Recipe) : Recipe :=
  { r with
    title := p.title.getD r.title
    time_minutes := p.time_minutes.getD r.time_minutes
    price := p.price.getD r.price
    description := p.description.getD r.description
    link := p.link.getD r.link }

/-- Applying a PUT payload to a recipe row: every writable field is
overwritten; id and owner are untouched. -/
def applyRecipePut (p : RecipePutPayload) (r : Recipe) : Recipe :=
  { r with
    title := p.title
    time_minutes := p.time_minutes
    price := p.price
    description := p.description
    link := p.link }

/-- Whether user `u` owns a recipe with primary key `i` — the lookup the
viewset performs on its user-filtered queryset. -/
def recipeOwned (s : Store) (u i : Nat) : Bool :=
  s.recipes.any (fun r => r.id == i && r.user == u)

/-- `GET /recipes/`.  Modelled from the spec: `recipe/views.py` is not in
src/; the queryset is filtered to the requesting user and ordered by
descending id; 401 without authentication. -/
def recipeListEP (auth : Option Nat) (s : Store) : Nat × List Recipe :=
  match auth with
  | none => (401, [])
  | some u =>
    (200, List.insertionSort recipeOrd (s.recipes.filter (fun r => r.user == u)))

/-- `POST /recipes/`: 401 without authentication, else 201 with the store
updated by `createRecipeCore`. -/
def recipeCreateEP (auth : Option Nat) (p : RecipeCreatePayload) (s : Store) :
    Nat × Store :=
  match auth with
  | none => (401, s)
  | some u => (201, (createRecipeCore u p s).2)

/-- `GET /recipes/{id}/`: 401 without authentication; 404 when the
user-filtered queryset holds no row with that id; else 200 and the row. -/
def recipeDetailEP (auth : Option Nat) (i : Nat) (s : Store) :
    Nat × Option Recipe :=
  match auth with
  | none => (401, none)
  | some u =>
    match s.recipes.find? (fun r => r.id == i && r.user == u) with
    | some r => (200, some r)
    | none => (404, none)

/-- `PATCH /recipes/{id}/`: 401 without authentication; 404 when the
caller owns no row with that id; else 200 and the row patched in place
(the owner field of the payload is silently ignored). -/
def recipePatchEP (auth : Option Nat) (i : Nat) (p : RecipePatchPayload)
    (s : Store) : Nat × Store :=
  match auth with
  | none => (401, s)
  | some u =>
    if recipeOwned s u i then
      (200, { s with recipes :=
        s.recipes.map (fun r =>
          if r.id == i && r.user == u then applyRecipePatch p r else r) })
    else (404, s)

/-- `PUT /recipes/{id}/`: like PATCH but with a full payload. -/
def recipePutEP (auth : Option Nat) (i : Nat) (p : RecipePutPayload)
    (s : Store) : Nat × Store :=
  match auth with
  | none => (401, s)
  | some u =>
    if recipeOwned s u i then
      (200, { s with recipes :=
        s.recipes.map (fun r =>
          if r.id == i && r.user == u then applyRecipePut p r else r) })
    else (404, s)

/-- `DELETE /recipes/{id}/`: 401 without authentication; 404 when the
caller owns no row with that id; else 204 and the row removed. -/
def recipeDeleteEP (auth : Option Nat) (i : Nat) (s : Store) : Nat × Store :=
  match auth with
  | none => (401, s)
  | some u =>
    if recipeOwned s u i then
      (204, { s with recipes := s.recipes.filter (fun r => r.id != i) })
    else (404, s)

/-- The SQL join a tag/ingredient list restricted to `assigned_only=1`
walks: one output row per (item, recipe referencing it) pair, before the
`distinct` deduplication. -/
def assignedJoin (items : List Named) (recipes : List Recipe)
    (assoc : Recipe → List Nat) (u : Nat) : List Named :=
  (items.filter (fun t => t.user == u)).flatMap (fun t =>
    (recipes.filter (fun r => decide (t.id ∈ assoc r))).map (fun _ => t))

/-- The list behaviour shared by `GET /tags/` and `GET /ingredients/`:
the caller's rows, restricted to recipe-referenced ones and deduplicated
when `assigned_only` is set, ordered by descending name. -/
def namedList (items : List Named) (recipes : List Recipe)
    (assoc : Recipe → List Nat) (u : Nat) (assignedOnly : Bool) : List Named :=
  if assignedOnly then
    List.insertionSort namedOrd (assignedJoin items recipes assoc u).dedup
  else
    List.insertionSort namedOrd (items.filter (fun t => t.user == u))

/-- Whether user `u` owns a tag/ingredient row with primary key `i`. -/
def namedOwned (items : List Named) (u i : Nat) : Bool :=
  items.any (fun t => t.id == i && t.user == u)

/-- Create behaviour shared by `POST /tags/` and `POST /ingredients/`:
the new row is owned by the requesting user (an owner field in the
payload is ignored). -/
def namedCreate (items : List Named) (nextId u : Nat)
    (p : NamedCreatePayload) : Named × List Named × Nat :=
  (⟨nextId, u, p.name⟩, items ++ [⟨nextId, u, p.name⟩], nextId + 1)

/-- Detail behaviour shared by tag and ingredient viewsets. -/
def namedDetail (items : List Named) (u i : Nat) : Nat × Option Named :=
  match items.find? (fun t => t.id == i && t.user == u) with
  | some t => (200, some t)
  | none => (404, none)

/-- PATCH behaviour shared by tag and ingredient viewsets: a present
owner field in the payload is silently ignored. -/
def namedPatch (items : List Named) (u i : Nat) (p : NamedPatchPayload) :
    Nat × List Named :=
  if namedOwned items u i then
    (200, items.map (fun t =>
      if t.id == i && t.user == u then { t with name := p.name.getD t.name }
      else t))
  else (404, items)

/-- PUT behaviour shared by tag and ingredient viewsets: the name is
overwritten; a present owner field in the payload is silently ignored. -/
def namedPut (items : List Named) (u i : Nat) (p : NamedPutPayload) :
    Nat × List Named :=
  if namedOwned items u i then
    (200, items.map (fun t =>
      if t.id == i && t.user == u then { t with name := p.name } else t))
  else (404, items)

/-- DELETE behaviour shared by tag and ingredient viewsets. -/
def namedDelete (items : List Named) (u i : Nat) : Nat × List Named :=
  if namedOwned items u i then
    (204, items.filter (fun t => t.id != i))
  else (404, items)

/-- `GET /tags/`. -/
def tagListEP (auth : Option Nat) (assignedOnly : Bool) (s : Store) :
    Nat × List Named :=
  match auth with
  | none => (401, [])
  | some u => (200, namedList s.tags s.recipes Recipe.tags u assignedOnly)

/-- `GET /ingredients/`. -/
def ingredientListEP (auth : Option Nat) (assignedOnly : Bool) (s : Store) :
    Nat × List Named :=
  match auth with
  | none => (401, [])
  | some u =>
    (200, namedList s.ingredients s.recipes Recipe.ingredients u assignedOnly)

/-- `POST /tags/`. -/
def tagCreateEP (auth : Option Nat) (p : NamedCreatePayload) (s : Store) :
    Nat × Store :=
  match auth with
  | none => (401, s)
  | some u =>
    let c := namedCreate s.tags s.nextTagId u p
    (201, { s with tags := c.2.1, nextTagId := c.2.2 })

/-- `POST /ingredients/`. -/
def ingredientCreateEP (auth : Option Nat) (p : NamedCreatePayload)
    (s : Store) : Nat × Store :=
  match auth with
  | none => (401, s)
  | some u =>
    let c := namedCreate s.ingredients s.nextIngredientId u p
    (201, { s with ingredients := c.2.1, nextIngredientId := c.2.2 })

/-- `GET /tags/{id}/`. -/
def tagDetailEP (auth : Option Nat) (i : Nat) (s : Store) :
    Nat × Option Named :=
  match auth with
  | none => (401, none)
  | some u => namedDetail s.tags u i

/-- `GET /ingredients/{id}/`. -/
def ingredientDetailEP (auth : Option Nat) (i : Nat) (s : Store) :
    Nat × Option Named :=
  match auth with
  | none => (401, none)
  | some u => namedDetail s.ingredients u i

/-- `PATCH /tags/{id}/`. -/
def tagPatchEP (auth : Option Nat) (i : Nat) (p : NamedPatchPayload)
    (s : Store) : Nat × Store :=
  match auth with
  | none => (401, s)
  | some u =>
    let r := namedPatch s.tags u i p
    (r.1, { s with tags := r.2 })

/-- `PATCH /ingredients/{id}/`. -/
def ingredientPatchEP (auth : Option Nat) (i : Nat) (p : NamedPatchPayload)
    (s : Store) : Nat × Store :=
  match auth with
  | none => (401, s)
  | some u =>
    let r := namedPatch s.ingredients u i p
    (r.1, { s with ingredients := r.2 })

/-- `PUT /tags/{id}/`. -/
def tagPutEP (auth : Option Nat) (i : Nat) (p : NamedPutPayload)
    (s : Store) : Nat × Store :=
  match auth with
  | none => (401, s)
  | some u =>
    let r := namedPut s.tags u i p
    (r.1, { s with tags := r.2 })

/-- `PUT /ingredients/{id}/`. -/
def ingredientPutEP (auth : Option Nat) (i : Nat) (p : NamedPutPayload)
    (s : Store) : Nat × Store :=
  match auth with
  | none => (401, s)
  | some u =>
    let r := namedPut s.ingredients u i p
    (r.1, { s with ingredients := r.2 })

/-- `DELETE /tags/{id}/`. -/
def tagDeleteEP (auth : Option Nat) (i : Nat) (s : Store) : Nat × Store :=
  match auth with
  | none => (401, s)
  | some u =>
    let r := namedDelete s.tags u i
    (r.1, { s with tags := r.2 })

/-- `DELETE /ingredients/{id}/`. -/
def ingredientDeleteEP (auth : Option Nat) (i : Nat) (s : Store) :
    Nat × Store :=
  match auth with
  | none => (401, s)
  | some u =>
    let r := namedDelete s.ingredients u i
    (r.1, { s with ingredients := r.2 })

/-! ### Sample data for concrete evaluations -/

/-- The sample recipe of the test helper `create_recipe` (price in cents). -/
def sampleRecipe : Recipe :=
  ⟨1, 1, "Sample recipe title", 5, 550, "Sample Desc",
    "http://example.com/recipe", [], []⟩

/-- A recipe owned by a second user. -/
def otherRecipe : Recipe :=
  ⟨2, 2, "Other title", 10, 523, "", "", [], []⟩

/-- A store with one recipe, tag and ingredient per user 1 and user 2. -/
def sampleStore : Store :=
  { recipes := [sampleRecipe, otherRecipe]
    tags := [⟨1, 1, "Indian"⟩, ⟨2, 2, "Vegan"⟩]
    ingredients := [⟨1, 1, "lion"⟩, ⟨2, 2, "salt"⟩]
    nextRecipeId := 3
    nextTagId := 3
    nextIngredientId := 3 }

/-! ### Helper lemmas about ownership lookups -/

theorem recipeOwned_true_of_mem {s : Store} {u : Nat} {r : Recipe}
    (hr : r ∈ s.recipes) (hu : r.user = u) : recipeOwned s u r.id = true := by
  simp only [recipeOwned, List.any_eq_true]
  exact ⟨r, hr, by simp [hu]⟩

theorem recipeOwned_false_of_other {s : Store} {u : Nat} {r : Recipe}
    (hN : (s.recipes.map Recipe.id).Nodup) (hr : r ∈ s.recipes)
    (hne : r.user ≠ u) : recipeOwned s u r.id = false := by
  simp only [recipeOwned, List.any_eq_false]
  intro q hq
  simp only [Bool.and_eq_true, beq_iff_eq, not_and]
  intro hid hu
  have hqr : q = r := List.inj_on_of_nodup_map hN hq hr hid
  exact hne (hqr ▸ hu)

theorem namedOwned_true_of_mem {items : List Named} {u : Nat} {t : Named}
    (ht : t ∈ items) (hu : t.user = u) : namedOwned items u t.id = true := by
  simp only [namedOwned, List.any_eq_true]
  exact ⟨t, ht, by simp [hu]⟩

theorem namedOwned_false_of_other {items : List Named} {u : Nat} {t : Named}
    (hN : (items.map Named.id).Nodup) (ht : t ∈ items)
    (hne : t.user ≠ u) : namedOwned items u t.id = false := by
  simp only [namedOwned, List.any_eq_false]
  intro q hq
  simp only [Bool.and_eq_true, beq_iff_eq, not_and]
  intro hid hu
  have hqt : q = t := List.inj_on_of_nodup_map hN hq ht hid
  exact hne (hqt ▸ hu)

theorem recipeDetail_404_of_other {s : Store} {u : Nat} {r : Recipe}
    (hN : (s.recipes.map Recipe.id).Nodup) (hr : r ∈ s.recipes)
    (hne : r.user ≠ u) : recipeDetailEP (some u) r.id s = (404, none) := by
  have hfind : s.recipes.find? (fun q => q.id == r.id && q.user == u) = none := by
    rw [List.find?_eq_none]
    intro q hq
    simp only [Bool.and_eq_true, beq_iff_eq, not_and]
    intro hid hu
    exact hne ((List.inj_on_of_nodup_map hN hq hr hid) ▸ hu)
  rw [recipeDetailEP, hfind]

theorem namedDetail_404_of_other {items : List Named} {u : Nat} {t : Named}
    (hN : (items.map Named.id).Nodup) (ht : t ∈ items)
    (hne : t.user ≠ u) : namedDetail items u t.id = (404, none) := by
  have hfind : items.find? (fun q => q.id == t.id && q.user == u) = none := by
    rw [List.find?_eq_none]
    intro q hq
    simp only [Bool.and_eq_true, beq_iff_eq, not_and]
    intro hid hu
    exact hne ((List.inj_on_of_nodup_map hN hq ht hid) ▸ hu)
  rw [namedDetail, hfind]

theorem user_eq_of_mem_assignedJoin {items : List Named}
    {recipes : List Recipe} {assoc : Recipe → List Nat} {u : Nat} {t : Named}
    (ht : t ∈ assignedJoin items recipes assoc u) : t.user = u := by
  rw [assignedJoin] at ht
  obtain ⟨t1, ht1, ht2⟩ := List.mem_flatMap.mp ht
  obtain ⟨r, _, he⟩ := List.mem_map.mp ht2
  cases he
  simpa using (List.mem_filter.mp ht1).2

theorem user_eq_of_mem_namedList {items : List Named} {recipes : List Recipe}
    {assoc : Recipe → List Nat} {u : Nat} {b : Bool} {t : Named}
    (ht : t ∈ namedList items recipes assoc u b) : t.user = u := by
  rw [namedList] at ht
  cases b with
  | true =>
    rw [if_pos rfl] at ht
    exact user_eq_of_mem_assignedJoin
      (List.mem_dedup.mp ((List.mem_insertionSort namedOrd).mp ht))
  | false =>
    rw [if_neg (by simp)] at ht
    simpa using (List.mem_filter.mp ((List.mem_insertionSort namedOrd).mp ht)).2

/-- Get-or-create over a list of names only appends rows, and every
appended row is owned by the requesting user, carries one of the supplied
names, and has a fresh id. -/
theorem gocm_grow (u : Nat) :
    ∀ (ns : List String) (items : List Named) (nid : Nat),
    ∃ new, (getOrCreateMany items nid u ns).2.1 = items ++ new ∧
      ∀ t ∈ new, t.user = u ∧ t.name ∈ ns ∧ nid ≤ t.id := by
  intro ns
  induction ns with
  | nil =>
    intro items nid
    exact ⟨[], by simp [getOrCreateMany], by simp⟩
  | cons n rest ih =>
    intro items nid
    rw [getOrCreateMany, getOrCreateNamed]
    cases hf : items.find? (fun t => t.user == u && t.name == n) with
    | some t0 =>
      obtain ⟨new, hnew, hprop⟩ := ih items nid
      refine ⟨new, by simpa using hnew, ?_⟩
      intro t htm
      obtain ⟨h1, h2, h3⟩ := hprop t htm
      exact ⟨h1, List.mem_cons_of_mem n h2, h3⟩
    | none =>
      obtain ⟨new, hnew, hprop⟩ := ih (items ++ [⟨nid, u, n⟩]) (nid + 1)
      refine ⟨⟨nid, u, n⟩ :: new, ?_, ?_⟩
      · simpa [List.append_assoc] using hnew
      · intro t htm
        rcases List.mem_cons.mp htm with h | h
        · subst h
          exact ⟨rfl, List.mem_cons_self n rest, Nat.le_refl nid⟩
        · obtain ⟨h1, h2, h3⟩ := hprop t h
          exact ⟨h1, List.mem_cons_of_mem n h2, Nat.le_of_succ_le h3⟩

/-! ### Structural lemmas about get-or-create -/

theorem gOC_found {items : List Named} {nid u : Nat} {n : String} {t : Named}
    (h : items.find? (fun t => t.user == u && t.name == n) = some t) :
    getOrCreateNamed items nid u n = (t, items, nid) := by
  rw [getOrCreateNamed, h]

theorem gOC_new {items : List Named} {nid u : Nat} {n : String}
    (h : items.find? (fun t => t.user == u && t.name == n) = none) :
    getOrCreateNamed items nid u n =
      (⟨nid, u, n⟩, items ++ [⟨nid, u, n⟩], nid + 1) := by
  rw [getOrCreateNamed, h]

theorem gOC_fst_user {items : List Named} {nid u : Nat} {n : String} :
    (getOrCreateNamed items nid u n).1.user = u ∧
    (getOrCreateNamed items nid u n).1.name = n := by
  rw [getOrCreateNamed]
  cases hf : items.find? (fun t => t.user == u && t.name == n) with
  | some t =>
    have := List.find?_some hf
    simp only [Bool.and_eq_true, beq_iff_eq] at this
    exact this
  | none => exact ⟨rfl, rfl⟩

theorem gOC_fst_mem {items : List Named} {nid u : Nat} {n : String} :
    (getOrCreateNamed items nid u n).1 ∈ (getOrCreateNamed items nid u n).2.1 := by
  rw [getOrCreateNamed]
  cases hf : items.find? (fun t => t.user == u && t.name == n) with
  | some t => exact List.mem_of_find?_eq_some hf
  | none => exact List.mem_append_right items (List.mem_singleton_self _)

theorem gocm_cons_items (items : List Named) (nid u : Nat) (n : String)
    (rest : List String) :
    (getOrCreateMany items nid u (n :: rest)).2.1 =
      (getOrCreateMany (getOrCreateNamed items nid u n).2.1
        (getOrCreateNamed items nid u n).2.2 u rest).2.1 := rfl

theorem gocm_cons_nid (items : List Named) (nid u : Nat) (n : String)
    (rest : List String) :
    (getOrCreateMany items nid u (n :: rest)).2.2 =
      (getOrCreateMany (getOrCreateNamed items nid u n).2.1
        (getOrCreateNamed items nid u n).2.2 u rest).2.2 := rfl

theorem gocm_cons_ids (items : List Named) (nid u : Nat) (n : String)
    (rest : List String) :
    (getOrCreateMany items nid u (n :: rest)).1 =
      (if (getOrCreateNamed items nid u n).1.id ∈
          (getOrCreateMany (getOrCreateNamed items nid u n).2.1
            (getOrCreateNamed items nid u n).2.2 u rest).1
       then (getOrCreateMany (getOrCreateNamed items nid u n).2.1
            (getOrCreateNamed items nid u n).2.2 u rest).1
       else (getOrCreateNamed items nid u n).1.id ::
          (getOrCreateMany (getOrCreateNamed items nid u n).2.1
            (getOrCreateNamed items nid u n).2.2 u rest).1) := rfl

theorem gOC_bound {items : List Named} {nid u : Nat} {n : String}
    (h : ∀ t ∈ items, t.id < nid) :
    (∀ t ∈ (getOrCreateNamed items nid u n).2.1,
        t.id < (getOrCreateNamed items nid u n).2.2) ∧
    nid ≤ (getOrCreateNamed items nid u n).2.2 := by
  rw [getOrCreateNamed]
  cases hf : items.find? (fun t => t.user == u && t.name == n) with
  | some t => exact ⟨h, Nat.le_refl nid⟩
  | none =>
    refine ⟨?_, Nat.le_succ nid⟩
    intro t ht
    rcases List.mem_append.mp ht with hm | hm
    · exact Nat.lt_succ_of_lt (h t hm)
    · rw [List.mem_singleton.mp hm]
      exact Nat.lt_succ_self nid

theorem gOC_nodup {items : List Named} {nid u : Nat} {n : String}
    (hb : ∀ t ∈ items, t.id < nid) (hN : (items.map Named.id).Nodup) :
    ((getOrCreateNamed items nid u n).2.1.map Named.id).Nodup := by
  rw [getOrCreateNamed]
  cases hf : items.find? (fun t => t.user == u && t.name == n) with
  | some t => exact hN
  | none =>
    rw [List.map_append]
    rw [List.nodup_append]
    refine ⟨hN, List.nodup_singleton nid, ?_⟩
    intro x hx hy
    have hx' : x = nid := by simpa using hy
    subst hx'
    obtain ⟨t, ht, hte⟩ := List.mem_map.mp hx
    exact absurd (hte ▸ hb t ht) (Nat.lt_irrefl _)

theorem gocm_bound (u : Nat) :
    ∀ (ns : List String) (items : List Named) (nid : Nat),
    (∀ t ∈ items, t.id < nid) →
    (∀ t ∈ (getOrCreateMany items nid u ns).2.1,
        t.id < (getOrCreateMany items nid u ns).2.2) ∧
    nid ≤ (getOrCreateMany items nid u ns).2.2 := by
  intro ns
  induction ns with
  | nil =>
    intro items nid h
    exact ⟨h, Nat.le_refl nid⟩
  | cons n rest ih =>
    intro items nid h
    rw [gocm_cons_items, gocm_cons_nid]
    obtain ⟨h1, h2⟩ := gOC_bound (u := u) (n := n) h
    obtain ⟨h3, h4⟩ := ih _ _ h1
    exact ⟨h3, Nat.le_trans h2 h4⟩

theorem gocm_nodup (u : Nat) :
    ∀ (ns : List String) (items : List Named) (nid : Nat),
    (∀ t ∈ items, t.id < nid) → (items.map Named.id).Nodup →
    (((getOrCreateMany items nid u ns).2.1.map Named.id).Nodup) := by
  intro ns
  induction ns with
  | nil =>
    intro items nid _ hN
    exact hN
  | cons n rest ih =>
    intro items nid hb hN
    rw [gocm_cons_items]
    exact ih _ _ (gOC_bound (u := u) (n := n) hb).1 (gOC_nodup hb hN)

theorem gocm_resolve (u : Nat) :
    ∀ (ns : List String) (items : List Named) (nid : Nat),
    ∀ i ∈ (getOrCreateMany items nid u ns).1,
      ∃ t ∈ (getOrCreateMany items nid u ns).2.1,
        t.id = i ∧ t.user = u ∧ t.name ∈ ns := by
  intro ns
  induction ns with
  | nil =>
    intro items nid i hi
    exact absurd hi (List.not_mem_nil i)
  | cons n rest ih =>
    intro items nid i hi
    rw [gocm_cons_ids] at hi
    rw [gocm_cons_items]
    have hhead : ∀ hi0 : i = (getOrCreateNamed items nid u n).1.id,
        ∃ t ∈ (getOrCreateMany (getOrCreateNamed items nid u n).2.1
            (getOrCreateNamed items nid u n).2.2 u rest).2.1,
          t.id = i ∧ t.user = u ∧ t.name ∈ n :: rest := by
      intro hi0
      obtain ⟨new, hnew, -⟩ := gocm_grow u rest
        (getOrCreateNamed items nid u n).2.1 (getOrCreateNamed items nid u n).2.2
      refine ⟨(getOrCreateNamed items nid u n).1, ?_, hi0.symm, gOC_fst_user.1, ?_⟩
      · rw [hnew]
        exact List.mem_append_left _ gOC_fst_mem
      · rw [gOC_fst_user.2]
        exact List.mem_cons_self n rest
    by_cases hc : (getOrCreateNamed items nid u n).1.id ∈
        (getOrCreateMany (getOrCreateNamed items nid u n).2.1
          (getOrCreateNamed items nid u n).2.2 u rest).1
    · rw [if_pos hc] at hi
      obtain ⟨t, ht, h1, h2, h3⟩ := ih _ _ i hi
      exact ⟨t, ht, h1, h2, List.mem_cons_of_mem n h3⟩
    · rw [if_neg hc] at hi
      rcases List.mem_cons.mp hi with h | h
      · exact hhead h
      · obtain ⟨t, ht, h1, h2, h3⟩ := ih _ _ i h
        exact ⟨t, ht, h1, h2, List.mem_cons_of_mem n h3⟩

/-- Get-or-create over a duplicate-free list of names: for each supplied
name the final table holds exactly one matching (user, name) row when
none existed, and exactly the prior number of matching rows otherwise
(reuse never duplicates). -/
theorem gocm_count (u : Nat) :
    ∀ (ns : List String) (items : List Named) (nid : Nat), ns.Nodup →
    ∀ n ∈ ns,
      (getOrCreateMany items nid u ns).2.1.countP
          (fun t => t.user == u && t.name == n) =
        if items.countP (fun t => t.user == u && t.name == n) = 0 then 1
        else items.countP (fun t => t.user == u && t.name == n) := by
  intro ns
  induction ns with
  | nil =>
    intro items nid _ n hn
    exact absurd hn (List.not_mem_nil n)
  | cons n0 rest ih =>
    intro items nid hND n hn
    obtain ⟨hn0, hrestND⟩ := List.nodup_cons.mp hND
    rw [gocm_cons_items]
    rcases List.mem_cons.mp hn with he | hr
    · subst he
      obtain ⟨new, hnew, hprop⟩ := gocm_grow u rest
        (getOrCreateNamed items nid u n).2.1
        (getOrCreateNamed items nid u n).2.2
      have hnewzero : new.countP (fun t => t.user == u && t.name == n) = 0 := by
        rw [List.countP_eq_zero]
        intro t ht
        simp only [Bool.and_eq_true, beq_iff_eq, not_and]
        intro _ hname
        exact absurd (hname ▸ (hprop t ht).2.1) hn0
      rw [hnew, List.countP_append, hnewzero, Nat.add_zero]
      cases hf : items.find? (fun t => t.user == u && t.name == n) with
      | some t1 =>
        have e1 : (getOrCreateNamed items nid u n).2.1 = items := by
          rw [gOC_found hf]
        have hpos : items.countP (fun t => t.user == u && t.name == n) ≠ 0 := by
          have hpm := List.mem_of_find?_eq_some hf
          have hpp := List.find?_some hf
          have h0 : 0 < items.countP (fun t => t.user == u && t.name == n) :=
            List.countP_pos_iff.mpr ⟨t1, hpm, hpp⟩
          omega
        rw [e1, if_neg hpos]
      | none =>
        have e1 : (getOrCreateNamed items nid u n).2.1 =
            items ++ [⟨nid, u, n⟩] := by
          rw [gOC_new hf]
        have hzero : items.countP (fun t => t.user == u && t.name == n) = 0 := by
          rw [List.countP_eq_zero]
          intro t ht
          have := List.find?_eq_none.mp hf t ht
          simpa using this
        rw [e1, List.countP_append, hzero, if_pos rfl]
        simp
    · have hne : n ≠ n0 := fun he => absurd (he ▸ hr) hn0
      have hcount1 : (getOrCreateNamed items nid u n0).2.1.countP
          (fun t => t.user == u && t.name == n) =
          items.countP (fun t => t.user == u && t.name == n) := by
        cases hf : items.find? (fun t => t.user == u && t.name == n0) with
        | some t1 =>
          have e1 : (getOrCreateNamed items nid u n0).2.1 = items := by
            rw [gOC_found hf]
          rw [e1]
        | none =>
          have e1 : (getOrCreateNamed items nid u n0).2.1 =
              items ++ [⟨nid, u, n0⟩] := by
            rw [gOC_new hf]
          rw [e1, List.countP_append]
          have hz : ([(⟨nid, u, n0⟩ : Named)]).countP
              (fun t => t.user == u && t.name == n) = 0 := by
            simp [hne.symm]
          rw [hz, Nat.add_zero]
      rw [ih _ _ hrestND n hr, hcount1]

/-- Core step for association uniqueness: if `t0` is the row resolved for
name `n0`, every id in `ids2` resolves to a row named in `rest`, and
`n0 ∉ rest`, then exactly one row of the table is associated under
`ids2 ∪ \x7bt0.id\x7d` with name `n0`. -/
theorem assoc_unique_step (u : Nat) (t0 : Named) (ids2 : List Nat)
    (I2 : List Named) (n0 : String) (rest : List String)
    (hN2 : (I2.map Named.id).Nodup) (ht0mem : t0 ∈ I2)
    (ht0u : t0.user = u) (ht0n : t0.name = n0) (hn0 : n0 ∉ rest)
    (hresolve : ∀ i ∈ ids2, ∃ t ∈ I2, t.id = i ∧ t.user = u ∧ t.name ∈ rest) :
    (I2.filter (fun t =>
      decide (t.id ∈ (if t0.id ∈ ids2 then ids2 else t0.id :: ids2)) &&
        t.name == n0 && t.user == u)).length = 1 := by
  have hinj := List.inj_on_of_nodup_map hN2
  have hnd : I2.Nodup := List.Nodup.of_map Named.id hN2
  have ht0ids : t0.id ∈ (if t0.id ∈ ids2 then ids2 else t0.id :: ids2) := by
    by_cases h : t0.id ∈ ids2
    · rw [if_pos h]
      exact h
    · rw [if_neg h]
      exact List.mem_cons_self _ _
  have hpt : ∀ t ∈ I2,
      (decide (t.id ∈ (if t0.id ∈ ids2 then ids2 else t0.id :: ids2)) &&
        t.name == n0 && t.user == u) = (t == t0) := by
    intro t ht
    by_cases hte : t = t0
    · subst hte
      simp [ht0ids, ht0n, ht0u]
    · have h2 : (t == t0) = false := by simp [hte]
      rw [h2]
      by_contra hcon
      rw [Bool.not_eq_false] at hcon
      simp only [Bool.and_eq_true, beq_iff_eq, decide_eq_true_eq] at hcon
      obtain ⟨⟨hidmem, hname⟩, _⟩ := hcon
      have hdisj : t.id = t0.id ∨ t.id ∈ ids2 := by
        by_cases h : t0.id ∈ ids2
        · rw [if_pos h] at hidmem
          exact Or.inr hidmem
        · rw [if_neg h] at hidmem
          exact List.mem_cons.mp hidmem
      rcases hdisj with h | h
      · exact hte (hinj ht ht0mem h)
      · obtain ⟨t1, ht1, hid1, -, hn1⟩ := hresolve _ h
        have he1 : t1 = t := hinj ht1 ht hid1
        rw [he1, hname] at hn1
        exact hn0 hn1
  rw [List.filter_congr hpt, ← List.countP_eq_length_filter]
  exact List.count_eq_one_of_mem hnd ht0mem

/-- Core step for association preservation: adding the id of a row named
`n0` to the association set does not change which rows named `n ≠ n0` are
associated. -/
theorem assoc_preserve_step (u : Nat) (t0 : Named) (ids2 : List Nat)
    (I2 : List Named) (n n0 : String)
    (hN2 : (I2.map Named.id).Nodup) (ht0mem : t0 ∈ I2) (ht0n : t0.name = n0)
    (hne : n ≠ n0) :
    I2.filter (fun t =>
      decide (t.id ∈ (if t0.id ∈ ids2 then ids2 else t0.id :: ids2)) &&
        t.name == n && t.user == u) =
    I2.filter (fun t => decide (t.id ∈ ids2) && t.name == n && t.user == u) := by
  have hinj := List.inj_on_of_nodup_map hN2
  by_cases h : t0.id ∈ ids2
  · rw [if_pos h]
  · rw [if_neg h]
    apply List.filter_congr
    intro t ht
    by_cases hname : t.name = n
    · have htne : t ≠ t0 := by
        intro he
        rw [he, ht0n] at hname
        exact hne hname.symm
      have hidne : t.id ≠ t0.id := fun hid => htne (hinj ht ht0mem hid)
      simp [List.mem_cons, hidne]
    · have hf : (t.name == n) = false := by simp [hname]
      simp [hf]

/-- Get-or-create with idempotent association: for each supplied name,
exactly one row of the final table is both associated with the recipe and
carries that name for the requesting user. -/
theorem gocm_assoc_unique (u : Nat) :
    ∀ (ns : List String) (items : List Named) (nid : Nat), ns.Nodup →
    (∀ t ∈ items, t.id < nid) → (items.map Named.id).Nodup →
    ∀ n ∈ ns,
      ((getOrCreateMany items nid u ns).2.1.filter
        (fun t => decide (t.id ∈ (getOrCreateMany items nid u ns).1) &&
          t.name == n && t.user == u)).length = 1 := by
  intro ns
  induction ns with
  | nil =>
    intro items nid _ _ _ n hn
    exact absurd hn (List.not_mem_nil n)
  | cons n0 rest ih =>
    intro items nid hND hb hN n hn
    obtain ⟨hn0, hrestND⟩ := List.nodup_cons.mp hND
    rw [gocm_cons_items, gocm_cons_ids]
    have hb1 := (gOC_bound (u := u) (n := n0) hb).1
    have hN1 := gOC_nodup (u := u) (n := n0) hb hN
    have hN2 := gocm_nodup u rest _ _ hb1 hN1
    obtain ⟨new2, hnew2, -⟩ := gocm_grow u rest
      (getOrCreateNamed items nid u n0).2.1
      (getOrCreateNamed items nid u n0).2.2
    have ht0mem : (getOrCreateNamed items nid u n0).1 ∈
        (getOrCreateMany (getOrCreateNamed items nid u n0).2.1
          (getOrCreateNamed items nid u n0).2.2 u rest).2.1 := by
      rw [hnew2]
      exact List.mem_append_left _ gOC_fst_mem
    rcases List.mem_cons.mp hn with he | hr
    · subst he
      exact assoc_unique_step u _ _ _ n rest hN2 ht0mem
        gOC_fst_user.1 gOC_fst_user.2 hn0 (gocm_resolve u rest _ _)
    · have hne : n ≠ n0 := fun he => absurd (he ▸ hr) hn0
      rw [assoc_preserve_step u _ _ _ n n0 hN2 ht0mem gOC_fst_user.2 hne]
      exact ih _ _ hrestND hb1 hN1 n hr

/-- C6: creating a recipe with inline tag/ingredient names (supplied
without duplicates) reuses an existing same-named row of the same user
(no duplicate row appears: the number of matching rows is unchanged when
one existed, and becomes one when none did), every row added is owned by
the creating user and carries a supplied name, and the recipe ends
associated with exactly one row per supplied name. -/
theorem inline_names_get_or_create (u : Nat) (p : RecipeCreatePayload)
    (s : Store) (hWF : s.WF) (hT : p.tagNames.Nodup)
    (hI : p.ingredientNames.Nodup) :
    (∀ t ∈ (createRecipeCore u p s).2.tags,
        t ∈ s.tags ∨ (t.user = u ∧ t.name ∈ p.tagNames)) ∧
    (∀ n ∈ p.tagNames,
      ((createRecipeCore u p s).2.tags.countP
          (fun t => t.user == u && t.name == n) =
        if s.tags.countP (fun t => t.user == u && t.name == n) = 0 then 1
        else s.tags.countP (fun t => t.user == u && t.name == n)) ∧
      ((createRecipeCore u p s).2.tags.filter
          (fun t => decide (t.id ∈ (createRecipeCore u p s).1.tags) &&
            t.name == n && t.user == u)).length = 1) ∧
    (∀ t ∈ (createRecipeCore u p s).2.ingredients,
        t ∈ s.ingredients ∨ (t.user = u ∧ t.name ∈ p.ingredientNames)) ∧
    (∀ n ∈ p.ingredientNames,
      ((createRecipeCore u p s).2.ingredients.countP
          (fun t => t.user == u && t.name == n) =
        if s.ingredients.countP
            (fun t => t.user == u && t.name == n) = 0 then 1
        else s.ingredients.countP (fun t => t.user == u && t.name == n)) ∧
      ((createRecipeCore u p s).2.ingredients.filter
          (fun t => decide (t.id ∈ (createRecipeCore u p s).1.ingredients) &&
            t.name == n && t.user == u)).length = 1) := by
  obtain ⟨-, hNt, hNi, -, hbt, hbi⟩ := hWF
  have et : (createRecipeCore u p s).2.tags =
      (getOrCreateMany s.tags s.nextTagId u p.tagNames).2.1 := rfl
  have eti : (createRecipeCore u p s).1.tags =
      (getOrCreateMany s.tags s.nextTagId u p.tagNames).1 := rfl
  have ei : (createRecipeCore u p s).2.ingredients =
      (getOrCreateMany s.ingredients s.nextIngredientId u
        p.ingredientNames).2.1 := rfl
  have eii : (createRecipeCore u p s).1.ingredients =
      (getOrCreateMany s.ingredients s.nextIngredientId u
        p.ingredientNames).1 := rfl
  refine ⟨?_, ?_, ?_, ?_⟩
  · intro t ht
    rw [et] at ht
    obtain ⟨new, hnew, hprop⟩ := gocm_grow u p.tagNames s.tags s.nextTagId
    rw [hnew] at ht
    rcases List.mem_append.mp ht with h | h
    · exact Or.inl h
    · exact Or.inr ⟨(hprop t h).1, (hprop t h).2.1⟩
  · intro n hn
    rw [et, eti]
    exact ⟨gocm_count u p.tagNames s.tags s.nextTagId hT n hn,
      gocm_assoc_unique u p.tagNames s.tags s.nextTagId hT hbt hNt n hn⟩
  · intro t ht
    rw [ei] at ht
    obtain ⟨new, hnew, hprop⟩ :=
      gocm_grow u p.ingredientNames s.ingredients s.nextIngredientId
    rw [hnew] at ht
    rcases List.mem_append.mp ht with h | h
    · exact Or.inl h
    · exact Or.inr ⟨(hprop t h).1, (hprop t h).2.1⟩
  · intro n hn
    rw [ei, eii]
    exact ⟨gocm_count u p.ingredientNames s.ingredients s.nextIngredientId
        hI n hn,
      gocm_assoc_unique u p.ingredientNames s.ingredients s.nextIngredientId
        hI hbi hNi n hn⟩

/-- The recipe-create payload of `test_create_recipe_with_existing_tags`:
the tag "Indian" already exists for user 1, "Breakfast" does not. -/
def pongalPayload : RecipeCreatePayload :=
  ⟨"Pongal", 50, 2323, "", "", ["Indian", "Breakfast"], [], none⟩

/-- C6 witness: creating Pongal at the sample store (which already holds
the user-1 tag "Indian") keeps exactly one "Indian" row and associates
exactly one row per supplied name. -/
theorem inline_names_get_or_create_witness :
    sampleStore.WF ∧ pongalPayload.tagNames.Nodup ∧
    ((createRecipeCore 1 pongalPayload sampleStore).2.tags.countP
        (fun t => t.user == 1 && t.name == "Indian") =
      if sampleStore.tags.countP
          (fun t => t.user == 1 && t.name == "Indian") = 0 then 1
      else sampleStore.tags.countP
          (fun t => t.user == 1 && t.name == "Indian")) ∧
    ((createRecipeCore 1 pongalPayload sampleStore).2.tags.filter
        (fun t =>
          decide (t.id ∈ (createRecipeCore 1 pongalPayload sampleStore).1.tags) &&
          t.name == "Breakfast" && t.user == 1)).length = 1 := by
  have h := inline_names_get_or_create 1 pongalPayload sampleStore
    (by unfold Store.WF; decide) (by decide) (by decide)
  exact ⟨by unfold Store.WF; decide, by decide,
    (h.2.1 "Indian" (by decide)).1, (h.2.1 "Breakfast" (by decide)).2⟩

/-- C1: per-user isolation — a record created through any create endpoint
is owned by the creating user (including tags/ingredients created inline
with a recipe), list responses contain only the caller's records, and a
record owned by a different user answers 404 on the caller's detail and
delete requests. -/
theorem per_user_isolation (u : Nat) (s : Store) (pc : RecipeCreatePayload)
    (nc : NamedCreatePayload) (b : Bool) (hWF : s.WF) :
    (∀ q ∈ (recipeListEP (some u) s).2, q.user = u) ∧
    (∀ t ∈ (tagListEP (some u) b s).2, t.user = u) ∧
    (∀ t ∈ (ingredientListEP (some u) b s).2, t.user = u) ∧
    ((createRecipeCore u pc s).1.user = u) ∧
    (∀ q ∈ (recipeCreateEP (some u) pc s).2.recipes,
        q ∈ s.recipes ∨ q.user = u) ∧
    (∀ t ∈ (recipeCreateEP (some u) pc s).2.tags, t ∈ s.tags ∨ t.user = u) ∧
    (∀ t ∈ (recipeCreateEP (some u) pc s).2.ingredients,
        t ∈ s.ingredients ∨ t.user = u) ∧
    ((namedCreate s.tags s.nextTagId u nc).1.user = u) ∧
    ((namedCreate s.ingredients s.nextIngredientId u nc).1.user = u) ∧
    (∀ r ∈ s.recipes, r.user ≠ u →
        recipeDetailEP (some u) r.id s = (404, none) ∧
        (recipeDeleteEP (some u) r.id s).1 = 404) ∧
    (∀ t ∈ s.tags, t.user ≠ u →
        tagDetailEP (some u) t.id s = (404, none) ∧
        (tagDeleteEP (some u) t.id s).1 = 404) ∧
    (∀ t ∈ s.ingredients, t.user ≠ u →
        ingredientDetailEP (some u) t.id s = (404, none) ∧
        (ingredientDeleteEP (some u) t.id s).1 = 404) := by
  obtain ⟨hNr, hNt, hNi, -⟩ := hWF
  refine ⟨?_, ?_, ?_, rfl, ?_, ?_, ?_, rfl, rfl, ?_, ?_, ?_⟩
  · intro q hq
    rw [recipeListEP] at hq
    simpa using
      (List.mem_filter.mp ((List.mem_insertionSort recipeOrd).mp hq)).2
  · intro t ht
    exact user_eq_of_mem_namedList ht
  · intro t ht
    exact user_eq_of_mem_namedList ht
  · intro q hq
    rw [recipeCreateEP] at hq
    rcases List.mem_append.mp hq with h | h
    · exact Or.inl h
    · right
      rw [List.mem_singleton.mp h]
  · intro t ht
    rw [recipeCreateEP] at ht
    obtain ⟨new, hnew, hprop⟩ := gocm_grow u pc.tagNames s.tags s.nextTagId
    rw [show (createRecipeCore u pc s).2.tags =
        (getOrCreateMany s.tags s.nextTagId u pc.tagNames).2.1 from rfl,
      hnew] at ht
    rcases List.mem_append.mp ht with h | h
    · exact Or.inl h
    · exact Or.inr (hprop t h).1
  · intro t ht
    rw [recipeCreateEP] at ht
    obtain ⟨new, hnew, hprop⟩ :=
      gocm_grow u pc.ingredientNames s.ingredients s.nextIngredientId
    rw [show (createRecipeCore u pc s).2.ingredients =
        (getOrCreateMany s.ingredients s.nextIngredientId u
          pc.ingredientNames).2.1 from rfl,
      hnew] at ht
    rcases List.mem_append.mp ht with h | h
    · exact Or.inl h
    · exact Or.inr (hprop t h).1
  · intro r hr hne
    refine ⟨recipeDetail_404_of_other hNr hr hne, ?_⟩
    rw [recipeDeleteEP]
    simp only [recipeOwned_false_of_other hNr hr hne, Bool.false_eq_true,
      if_false]
  · intro t ht hne
    refine ⟨?_, ?_⟩
    · rw [tagDetailEP]
      exact namedDetail_404_of_other hNt ht hne
    · rw [tagDeleteEP, namedDelete]
      simp only [namedOwned_false_of_other hNt ht hne, Bool.false_eq_true,
        if_false]
  · intro t ht hne
    refine ⟨?_, ?_⟩
    · rw [ingredientDetailEP]
      exact namedDetail_404_of_other hNi ht hne
    · rw [ingredientDeleteEP, namedDelete]
      simp only [namedOwned_false_of_other hNi ht hne, Bool.false_eq_true,
        if_false]

/-- C1 witness: concrete isolation facts at the sample store. -/
theorem per_user_isolation_witness :
    sampleStore.WF ∧
    (createRecipeCore 1
      ⟨"Sample Recipe", 10, 523, "", "", [], [], none⟩ sampleStore).1.user = 1 ∧
    recipeDetailEP (some 1) otherRecipe.id sampleStore = (404, none) := by
  have h := per_user_isolation 1 sampleStore
    ⟨"Sample Recipe", 10, 523, "", "", [], [], none⟩ ⟨"Lunch", none⟩ false
    (by unfold Store.WF; decide)
  exact ⟨by unfold Store.WF; decide, h.2.2.2.1,
    (h.2.2.2.2.2.2.2.2.2.1 otherRecipe (by decide) (by decide)).1⟩

/-- C2: every request to a listed recipe/tag/ingredient endpoint that
carries no authentication is answered with status 401, whatever the store
and the request parameters; no such request succeeds. -/
theorem unauthenticated_requests_return_401 (s : Store) (i : Nat)
    (pc : RecipeCreatePayload) (pp : RecipePatchPayload)
    (pu : RecipePutPayload) (nc : NamedCreatePayload)
    (np : NamedPatchPayload) (npu : NamedPutPayload) (b : Bool) :
    (recipeListEP none s).1 = 401 ∧
    (recipeCreateEP none pc s).1 = 401 ∧
    (recipeDetailEP none i s).1 = 401 ∧
    (recipePatchEP none i pp s).1 = 401 ∧
    (recipePutEP none i pu s).1 = 401 ∧
    (recipeDeleteEP none i s).1 = 401 ∧
    (tagListEP none b s).1 = 401 ∧
    (tagCreateEP none nc s).1 = 401 ∧
    (tagDetailEP none i s).1 = 401 ∧
    (tagPatchEP none i np s).1 = 401 ∧
    (tagPutEP none i npu s).1 = 401 ∧
    (tagDeleteEP none i s).1 = 401 ∧
    (ingredientListEP none b s).1 = 401 ∧
    (ingredientCreateEP none nc s).1 = 401 ∧
    (ingredientDetailEP none i s).1 = 401 ∧
    (ingredientPatchEP none i np s).1 = 401 ∧
    (ingredientPutEP none i npu s).1 = 401 ∧
    (ingredientDeleteEP none i s).1 = 401 :=
  ⟨rfl, rfl, rfl, rfl, rfl, rfl, rfl, rfl, rfl, rfl, rfl, rfl, rfl, rfl,
    rfl, rfl, rfl, rfl⟩

theorem map_idUser_conditional_patch (f : Recipe → Recipe)
    (hf : ∀ r, (f r).id = r.id ∧ (f r).user = r.user)
    (c : Recipe → Bool) (l : List Recipe) :
    (l.map (fun r => if c r then f r else r)).map (fun r => (r.id, r.user)) =
      l.map (fun r => (r.id, r.user)) := by
  rw [List.map_map]
  apply List.map_congr_left
  intro a _
  by_cases h : c a
  · simp only [Function.comp_apply, h, if_true, (hf a).1, (hf a).2]
  · simp [h]

theorem map_idUser_conditional_named (f : Named → Named)
    (hf : ∀ t, (f t).id = t.id ∧ (f t).user = t.user)
    (c : Named → Bool) (l : List Named) :
    (l.map (fun t => if c t then f t else t)).map (fun t => (t.id, t.user)) =
      l.map (fun t => (t.id, t.user)) := by
  rw [List.map_map]
  apply List.map_congr_left
  intro a _
  by_cases h : c a
  · simp only [Function.comp_apply, h, if_true, (hf a).1, (hf a).2]
  · simp [h]

/-- C3: the owning user is fixed at creation and never changed by
updates: after any of the six PATCH/PUT operations (whatever the payload,
in particular one whose owner field names a different user) every stored
row keeps its original (id, owner) pair; and when the caller owns the
targeted row the request still succeeds with 200 — the owner field is
silently ignored, not an error. -/
theorem owner_immutable_under_update (u i : Nat) (s : Store)
    (pp : RecipePatchPayload) (pu : RecipePutPayload)
    (np : NamedPatchPayload) (npu : NamedPutPayload) :
    ((recipePatchEP (some u) i pp s).2.recipes.map (fun r => (r.id, r.user)) =
      s.recipes.map (fun r => (r.id, r.user))) ∧
    ((recipePutEP (some u) i pu s).2.recipes.map (fun r => (r.id, r.user)) =
      s.recipes.map (fun r => (r.id, r.user))) ∧
    ((tagPatchEP (some u) i np s).2.tags.map (fun t => (t.id, t.user)) =
      s.tags.map (fun t => (t.id, t.user))) ∧
    ((tagPutEP (some u) i npu s).2.tags.map (fun t => (t.id, t.user)) =
      s.tags.map (fun t => (t.id, t.user))) ∧
    ((ingredientPatchEP (some u) i np s).2.ingredients.map
        (fun t => (t.id, t.user)) =
      s.ingredients.map (fun t => (t.id, t.user))) ∧
    ((ingredientPutEP (some u) i npu s).2.ingredients.map
        (fun t => (t.id, t.user)) =
      s.ingredients.map (fun t => (t.id, t.user))) ∧
    (recipeOwned s u i = true →
      (recipePatchEP (some u) i pp s).1 = 200 ∧
      (recipePutEP (some u) i pu s).1 = 200) ∧
    (namedOwned s.tags u i = true →
      (tagPatchEP (some u) i np s).1 = 200 ∧
      (tagPutEP (some u) i npu s).1 = 200) ∧
    (namedOwned s.ingredients u i = true →
      (ingredientPatchEP (some u) i np s).1 = 200 ∧
      (ingredientPutEP (some u) i npu s).1 = 200) := by
  rw [recipePatchEP, recipePutEP, tagPatchEP, tagPutEP, ingredientPatchEP,
    ingredientPutEP, namedPatch, namedPatch, namedPut, namedPut]
  refine ⟨?_, ?_, ?_, ?_, ?_, ?_, ?_, ?_, ?_⟩
  · by_cases h : recipeOwned s u i
    · simp only [h, if_true]
      exact map_idUser_conditional_patch (applyRecipePatch pp)
        (fun r => ⟨rfl, rfl⟩) _ s.recipes
    · simp only [h, Bool.false_eq_true, if_false]
  · by_cases h : recipeOwned s u i
    · simp only [h, if_true]
      exact map_idUser_conditional_patch (applyRecipePut pu)
        (fun r => ⟨rfl, rfl⟩) _ s.recipes
    · simp only [h, Bool.false_eq_true, if_false]
  · by_cases h : namedOwned s.tags u i
    · simp only [h, if_true]
      exact map_idUser_conditional_named
        (fun t => { t with name := np.name.getD t.name })
        (fun t => ⟨rfl, rfl⟩) _ s.tags
    · simp only [h, Bool.false_eq_true, if_false]
  · by_cases h : namedOwned s.tags u i
    · simp only [h, if_true]
      exact map_idUser_conditional_named
        (fun t => { t with name := npu.name })
        (fun t => ⟨rfl, rfl⟩) _ s.tags
    · simp only [h, Bool.false_eq_true, if_false]
  · by_cases h : namedOwned s.ingredients u i
    · simp only [h, if_true]
      exact map_idUser_conditional_named
        (fun t => { t with name := np.name.getD t.name })
        (fun t => ⟨rfl, rfl⟩) _ s.ingredients
    · simp only [h, Bool.false_eq_true, if_false]
  · by_cases h : namedOwned s.ingredients u i
    · simp only [h, if_true]
      exact map_idUser_conditional_named
        (fun t => { t with name := npu.name })
        (fun t => ⟨rfl, rfl⟩) _ s.ingredients
    · simp only [h, Bool.false_eq_true, if_false]
  · intro h
    simp only [h, if_true]
    exact ⟨trivial, trivial⟩
  · intro h
    simp only [h, if_true]
    exact ⟨trivial, trivial⟩
  · intro h
    simp only [h, if_true]
    exact ⟨trivial, trivial⟩

/-- C3 witness: user 1 patches their recipe 1 and tag 1 naming user 2 as
owner; the stored owners are unchanged and the responses are 200. -/
theorem owner_immutable_under_update_witness :
    ((recipePatchEP (some 1) 1
        ⟨none, none, none, none, none, some 2⟩ sampleStore).2.recipes.map
      (fun r => (r.id, r.user)) =
      sampleStore.recipes.map (fun r => (r.id, r.user))) ∧
    recipeOwned sampleStore 1 1 = true ∧
    (recipePatchEP (some 1) 1
        ⟨none, none, none, none, none, some 2⟩ sampleStore).1 = 200 ∧
    namedOwned sampleStore.tags 1 1 = true ∧
    (tagPutEP (some 1) 1 ⟨"Lunch", some 2⟩ sampleStore).1 = 200 := by
  have h := owner_immutable_under_update 1 1 sampleStore
    ⟨none, none, none, none, none, some 2⟩
    ⟨"new", 10, 342, "new desc", "newexample.com", some 2⟩
    ⟨none, some 2⟩ ⟨"Lunch", some 2⟩
  exact ⟨h.1, by decide, (h.2.2.2.2.2.2.1 (by decide)).1, by decide,
    (h.2.2.2.2.2.2.2.1 (by decide)).2⟩

/-- C5: a PATCH by the owner succeeds with 200; in the patched row each
field present in the payload takes the payload's value and each absent
field (link, title, …, and always the owner) keeps its prior value, and
every row with a different id is left as it was. -/
theorem partial_update_frame (u : Nat) (s : Store) (r : Recipe)
    (p : RecipePatchPayload) (hWF : s.WF) (hr : r ∈ s.recipes)
    (hu : r.user = u) :
    (recipePatchEP (some u) r.id p s).1 = 200 ∧
    (∀ q ∈ (recipePatchEP (some u) r.id p s).2.recipes,
      (q.id ≠ r.id → q ∈ s.recipes) ∧
      (q.id = r.id →
        (∀ x, p.title = some x → q.title = x) ∧
        (p.title = none → q.title = r.title) ∧
        (∀ x, p.time_minutes = some x → q.time_minutes = x) ∧
        (p.time_minutes = none → q.time_minutes = r.time_minutes) ∧
        (∀ x, p.price = some x → q.price = x) ∧
        (p.price = none → q.price = r.price) ∧
        (∀ x, p.description = some x → q.description = x) ∧
        (p.description = none → q.description = r.description) ∧
        (∀ x, p.link = some x → q.link = x) ∧
        (p.link = none → q.link = r.link) ∧
        q.user = r.user)) ∧
    (∀ q ∈ s.recipes, q.id ≠ r.id →
      q ∈ (recipePatchEP (some u) r.id p s).2.recipes) := by
  obtain ⟨hNr, -⟩ := hWF
  have hok : recipeOwned s u r.id = true := recipeOwned_true_of_mem hr hu
  rw [recipePatchEP]
  simp only [hok, if_true]
  refine ⟨trivial, ?_, ?_⟩
  · intro q hq
    obtain ⟨q0, hq0, hq0e⟩ := List.mem_map.mp hq
    by_cases hc : (q0.id == r.id && q0.user == u) = true
    · have hq0r : q0 = r := by
        simp only [Bool.and_eq_true, beq_iff_eq] at hc
        exact List.inj_on_of_nodup_map hNr hq0 hr hc.1
      subst hq0r
      rw [hc] at hq0e
      rw [if_pos rfl] at hq0e
      subst hq0e
      constructor
      · intro hne
        exact absurd rfl hne
      · intro _
        refine ⟨?_, ?_, ?_, ?_, ?_, ?_, ?_, ?_, ?_, ?_, rfl⟩ <;>
          first
          | (intro x hx
             simp only [applyRecipePatch, hx, Option.getD_some])
          | (intro hx
             simp only [applyRecipePatch, hx, Option.getD_none])
    · rw [Bool.not_eq_true] at hc
      rw [hc] at hq0e
      rw [if_neg Bool.false_ne_true] at hq0e
      subst hq0e
      constructor
      · intro _
        exact hq0
      · intro hid
        have hq0r : q0 = r := List.inj_on_of_nodup_map hNr hq0 hr hid
        subst hq0r
        simp [hu] at hc
  · intro q hq hne
    refine List.mem_map.mpr ⟨q, hq, ?_⟩
    have hc : (q.id == r.id && q.user == u) = false := by
      simp only [Bool.and_eq_false_iff, beq_eq_false_iff_ne, ne_eq]
      exact Or.inl hne
    rw [hc]
    rw [if_neg Bool.false_ne_true]

/-- C5 witness: the test's partial update — patch only the title of the
sample recipe; the link and owner keep their prior values. -/
theorem partial_update_frame_witness :
    sampleStore.WF ∧ sampleRecipe ∈ sampleStore.recipes ∧
    (recipePatchEP (some 1) sampleRecipe.id
      ⟨some "New Recipe Title", none, none, none, none, none⟩
      sampleStore).1 = 200 := by
  have h := partial_update_frame 1 sampleStore sampleRecipe
    ⟨some "New Recipe Title", none, none, none, none, none⟩
    (by unfold Store.WF; decide) (by decide) (by decide)
  exact ⟨by unfold Store.WF; decide, by decide, h.1⟩

theorem mem_assignedJoin_iff {items : List Named} {recipes : List Recipe}
    {assoc : Recipe → List Nat} {u : Nat} {t : Named} :
    t ∈ assignedJoin items recipes assoc u ↔
      t ∈ items ∧ t.user = u ∧ ∃ r ∈ recipes, t.id ∈ assoc r := by
  rw [assignedJoin]
  constructor
  · intro h
    obtain ⟨t1, ht1, ht2⟩ := List.mem_flatMap.mp h
    obtain ⟨r, hr, he⟩ := List.mem_map.mp ht2
    cases he
    obtain ⟨hmem, hus⟩ := List.mem_filter.mp ht1
    obtain ⟨hrm, hrid⟩ := List.mem_filter.mp hr
    exact ⟨hmem, by simpa using hus, r, hrm, by simpa using hrid⟩
  · rintro ⟨hmem, hus, r, hrm, hrid⟩
    refine List.mem_flatMap.mpr ⟨t, List.mem_filter.mpr ⟨hmem, by simp [hus]⟩, ?_⟩
    exact List.mem_map.mpr ⟨r, List.mem_filter.mpr ⟨hrm, by simpa using hrid⟩, rfl⟩

theorem namedList_assigned_count {items : List Named} {recipes : List Recipe}
    {assoc : Recipe → List Nat} {u : Nat} {t : Named}
    (ht : t ∈ items) (hu : t.user = u) (h : ∃ r ∈ recipes, t.id ∈ assoc r) :
    (namedList items recipes assoc u true).count t = 1 := by
  rw [namedList, if_pos rfl, (List.perm_insertionSort namedOrd _).count_eq,
    List.count_dedup, if_pos (mem_assignedJoin_iff.mpr ⟨ht, hu, h⟩)]

theorem namedList_assigned_not_mem {items : List Named} {recipes : List Recipe}
    {assoc : Recipe → List Nat} {u : Nat} {t : Named}
    (h : ∀ r ∈ recipes, t.id ∉ assoc r) :
    t ∉ namedList items recipes assoc u true := by
  rw [namedList, if_pos rfl]
  intro hmem
  obtain ⟨-, -, r, hr, hid⟩ := mem_assignedJoin_iff.mp
    (List.mem_dedup.mp ((List.mem_insertionSort namedOrd).mp hmem))
  exact h r hr hid

/-- C7: with `assigned_only=1` the tag/ingredient list contains each of
the caller's rows that is referenced by at least one recipe exactly once
(even when several recipes reference it), and contains no row that no
recipe references. -/
theorem assigned_only_unique_and_excluding (u : Nat) (s : Store) :
    (∀ t ∈ s.ingredients, t.user = u →
      (∃ r ∈ s.recipes, t.id ∈ r.ingredients) →
      (ingredientListEP (some u) true s).2.count t = 1) ∧
    (∀ t : Named, (∀ r ∈ s.recipes, t.id ∉ r.ingredients) →
      t ∉ (ingredientListEP (some u) true s).2) ∧
    (∀ t ∈ s.tags, t.user = u →
      (∃ r ∈ s.recipes, t.id ∈ r.tags) →
      (tagListEP (some u) true s).2.count t = 1) ∧
    (∀ t : Named, (∀ r ∈ s.recipes, t.id ∉ r.tags) →
      t ∉ (tagListEP (some u) true s).2) := by
  refine ⟨?_, ?_, ?_, ?_⟩
  · intro t ht hu h
    exact namedList_assigned_count ht hu h
  · intro t h
    exact namedList_assigned_not_mem h
  · intro t ht hu h
    exact namedList_assigned_count ht hu h
  · intro t h
    exact namedList_assigned_not_mem h

/-- A store mirroring `test_filtered_ingredients_unique`: one ingredient
referenced by two recipes, one referenced by none. -/
def filterStore : Store :=
  { recipes :=
      [⟨1, 1, "Egss", 3, 200, "", "", [], [1]⟩,
       ⟨2, 1, "Egssadafs", 223, 1200, "", "", [], [1]⟩]
    tags := []
    ingredients := [⟨1, 1, "Eggs"⟩, ⟨2, 1, "eggssgsg"⟩]
    nextRecipeId := 3
    nextTagId := 1
    nextIngredientId := 3 }

/-- C7 witness: in `filterStore`, ingredient 1 (referenced twice) is
listed exactly once and ingredient 2 (referenced by no recipe) is
absent. -/
theorem assigned_only_unique_and_excluding_witness :
    (ingredientListEP (some 1) true filterStore).2.count ⟨1, 1, "Eggs"⟩ = 1 ∧
    ⟨2, 1, "eggssgsg"⟩ ∉ (ingredientListEP (some 1) true filterStore).2 := by
  have h := assigned_only_unique_and_excluding 1 filterStore
  refine ⟨h.1 ⟨1, 1, "Eggs"⟩ (by decide) (by decide) ?_, h.2.1 ⟨2, 1, "eggssgsg"⟩ (by decide)⟩
  exact ⟨⟨1, 1, "Egss", 3, 200, "", "", [], [1]⟩, by decide, by decide⟩

/-- C9: authenticated list responses come in a fixed order: the recipe
list is sorted by descending id and the ingredient list (with or without
the `assigned_only` filter) by descending name. -/
theorem list_responses_sorted (u : Nat) (s : Store) (b : Bool) :
    List.Sorted (fun a b => b.id ≤ a.id) (recipeListEP (some u) s).2 ∧
    List.Sorted (fun a b => b.name ≤ a.name)
      (ingredientListEP (some u) b s).2 := by
  constructor
  · exact List.sorted_insertionSort recipeOrd _
  · cases b
    · exact List.sorted_insertionSort namedOrd _
    · exact List.sorted_insertionSort namedOrd _

/-- C8: a DELETE on a recipe leaves the tag and ingredient tables exactly
as they were, and removes no other recipe row: every remaining recipe
row was already in the store (only the targeted recipe and the
association lists embedded in it disappear). -/
theorem delete_recipe_preserves_tags_and_ingredients (u i : Nat)
    (s : Store) :
    (recipeDeleteEP (some u) i s).2.tags = s.tags ∧
    (recipeDeleteEP (some u) i s).2.ingredients = s.ingredients ∧
    (∀ q ∈ (recipeDeleteEP (some u) i s).2.recipes, q ∈ s.recipes) ∧
    (∀ q ∈ s.recipes, q.id ≠ i → q ∈ (recipeDeleteEP (some u) i s).2.recipes) := by
  rw [recipeDeleteEP]
  by_cases h : recipeOwned s u i
  · simp only [h, if_true]
    refine ⟨trivial, trivial, ?_, ?_⟩
    · intro q hq
      exact (List.mem_filter.mp hq).1
    · intro q hq hne
      exact List.mem_filter.mpr ⟨hq, by simpa using hne⟩
  · simp only [h, if_false]
    refine ⟨rfl, rfl, fun q hq => hq, fun q hq _ => hq⟩

/-- C8 witness: concrete evaluation at the sample store. -/
theorem delete_recipe_preserves_tags_and_ingredients_witness :
    (recipeDeleteEP (some 1) 1 sampleStore).2.tags = sampleStore.tags ∧
    (recipeDeleteEP (some 1) 1 sampleStore).2.ingredients =
      sampleStore.ingredients :=
  ⟨(delete_recipe_preserves_tags_and_ingredients 1 1 sampleStore).1,
    (delete_recipe_preserves_tags_and_ingredients 1 1 sampleStore).2.1⟩

/-- C10: when the owner deletes their own recipe or ingredient — each
independently, in any store — the response is 204 and afterwards no row
with that id remains in the table, for any user: deletion is physical. -/
theorem owner_delete_removes_record (u : Nat) (s : Store) :
    (∀ r ∈ s.recipes, r.user = u →
      (recipeDeleteEP (some u) r.id s).1 = 204 ∧
      ∀ q ∈ (recipeDeleteEP (some u) r.id s).2.recipes, q.id ≠ r.id) ∧
    (∀ g ∈ s.ingredients, g.user = u →
      (ingredientDeleteEP (some u) g.id s).1 = 204 ∧
      ∀ t ∈ (ingredientDeleteEP (some u) g.id s).2.ingredients,
        t.id ≠ g.id) := by
  constructor
  · intro r hr hru
    have h1 : recipeOwned s u r.id = true := recipeOwned_true_of_mem hr hru
    rw [recipeDeleteEP]
    simp only [h1, if_true]
    refine ⟨trivial, ?_⟩
    intro q hq
    have := (List.mem_filter.mp hq).2
    simpa using this
  · intro g hg hgu
    have h2 : namedOwned s.ingredients u g.id = true :=
      namedOwned_true_of_mem hg hgu
    rw [ingredientDeleteEP, namedDelete]
    simp only [h2, if_true]
    refine ⟨trivial, ?_⟩
    intro t ht
    have := (List.mem_filter.mp ht).2
    simpa using this

/-- C10 witness: user 1 deletes their recipe 1 and ingredient 1. -/
theorem owner_delete_removes_record_witness :
    sampleRecipe ∈ sampleStore.recipes ∧ sampleRecipe.user = 1 ∧
    (recipeDeleteEP (some 1) sampleRecipe.id sampleStore).1 = 204 ∧
    (ingredientDeleteEP (some 1) 1 sampleStore).1 = 204 := by
  have h := owner_delete_removes_record 1 sampleStore
  exact ⟨by decide, by decide,
    (h.1 sampleRecipe (by decide) (by decide)).1,
    (h.2 ⟨1, 1, "lion"⟩ (by decide) (by decide)).1⟩

/-- C4: a DELETE by an authenticated user on any record — recipe, tag or
ingredient — owned by a different user answers 404 and leaves the store
untouched, each record independently in any well-formed store. -/
theorem cross_user_delete_404 (u : Nat) (s : Store) (hWF : s.WF) :
    (∀ r ∈ s.recipes, r.user ≠ u →
      recipeDeleteEP (some u) r.id s = (404, s)) ∧
    (∀ t ∈ s.tags, t.user ≠ u →
      tagDeleteEP (some u) t.id s = (404, s)) ∧
    (∀ t ∈ s.ingredients, t.user ≠ u →
      ingredientDeleteEP (some u) t.id s = (404, s)) := by
  obtain ⟨hNr, hNt, hNi, -⟩ := hWF
  refine ⟨?_, ?_, ?_⟩
  · intro r hr hne
    rw [recipeDeleteEP]
    simp only [recipeOwned_false_of_other hNr hr hne, Bool.false_eq_true,
      if_false]
  · intro t ht hne
    rw [tagDeleteEP, namedDelete]
    simp only [namedOwned_false_of_other hNt ht hne, Bool.false_eq_true,
      if_false]
  · intro t ht hne
    rw [ingredientDeleteEP, namedDelete]
    simp only [namedOwned_false_of_other hNi ht hne, Bool.false_eq_true,
      if_false]

/-- C4 witness: user 1 tries to delete user 2's recipe and tag. -/
theorem cross_user_delete_404_witness :
    sampleStore.WF ∧ otherRecipe ∈ sampleStore.recipes ∧ otherRecipe.user ≠ 1 ∧
    recipeDeleteEP (some 1) otherRecipe.id sampleStore = (404, sampleStore) ∧
    tagDeleteEP (some 1) 2 sampleStore = (404, sampleStore) := by
  have h := cross_user_delete_404 1 sampleStore (by unfold Store.WF; decide)
  exact ⟨by unfold Store.WF; decide, by decide, by decide,
    h.1 otherRecipe (by decide) (by decide),
    h.2.1 ⟨2, 2, "Vegan"⟩ (by decide) (by decide)⟩

end RecipeAPI
